import Mathlib

/-!
Shallow embedding of the download queue and transfer engine of the Stream
application (`src/App.tsx`, data model in `src/types.ts`).

The embedding models the React component's `downloads` state array, the
`activeDownloadsRef` map of abort controllers (as the list of item ids with a
live controller), and the blob store (as an association list from item id to
stored blob size in bytes).  Every queue operation of the source
(`requestDownload`, `pauseDownload`, `deleteDownload`, `clearCompleted`, the
queue-processor effect, and the three termination branches of
`executeDownload`) is translated as a pure function on this state.  JavaScript
numbers are modelled as exact rationals (`ℚ`); the only divisions performed by
the source are by powers of two and by measured values, so no floating-point
rounding questions arise for the properties considered here.
-/

namespace Stream

/-- The `status` field of `DownloadItem` (`src/types.ts`):
`'queued' | 'downloading' | 'completed' | 'failed' | 'paused'`. -/
inductive Status where
  | queued
  | downloading
  | completed
  | failed
  | paused
deriving DecidableEq, Repr

/-- The `DownloadItem` interface of `src/types.ts`.  Sizes are in megabytes
(`totalSizeMB`, `downloadedSizeMB`), `speed` in MB/s, exactly as the source
declares them.  The optional `speed?` field is always set by the code that
creates items, so it is modelled as a total field. -/
structure DownloadItem where
  movieId : String
  progress : ℚ
  status : Status
  expiry : ℤ
  totalSizeMB : ℚ
  downloadedSizeMB : ℚ
  speed : ℚ
deriving DecidableEq, Repr

/-- The blob store (`services/offlineStorage`): an association from movie id to
the byte size of the stored blob.  A blob is modelled by its byte length, which
is all the claims consume. -/
def Store := List (String × ℕ)
deriving DecidableEq

/-- The mutable state of the queue manager: the `downloads` React state array,
the keys of the `activeDownloadsRef` controller map, and the blob store. -/
structure AppState where
  downloads : List DownloadItem
  active : List String
  store : Store
deriving DecidableEq

/-- Lookup of a stored blob's size: `getVideo` viewed through its size. -/
def storeGet (st : Store) (id : String) : Option ℕ :=
  (List.find? (fun p => p.1 = id) st).map (fun p => p.2)

/-- `saveVideo(movieId, blob)`: stores the blob under the key, overwriting any
prior value (IndexedDB `put`). -/
def storePut (st : Store) (id : String) (size : ℕ) : Store :=
  (id, size) :: List.filter (fun p => p.1 ≠ id) st

/-- `deleteVideo(movieId)`: removes the entry for the key. -/
def storeDelete (st : Store) (id : String) : Store :=
  List.filter (fun p => p.1 ≠ id) st

/-- `downloads.filter(d => d.status === 'downloading').length`, the active
count computed by `requestDownload` and the queue-processor effect. -/
def countDownloading (ds : List DownloadItem) : ℕ :=
  List.countP (fun d => d.status = Status.downloading) ds

/-- `downloads.find(d => d.movieId === movieId)`. -/
def findItem (ds : List DownloadItem) (id : String) : Option DownloadItem :=
  List.find? (fun d => d.movieId = id) ds

/-- The synchronous prefix of `executeDownload` (src/App.tsx lines 235-241):
set the item's status to `downloading` and register the fresh
`AbortController` in `activeDownloadsRef`. -/
def executeStart (id : String) (s : AppState) : AppState :=
  { s with
    downloads := s.downloads.map (fun d =>
      if d.movieId = id then { d with status := Status.downloading } else d),
    active := id :: s.active }

/-- `pauseDownload(movieId)` (src/App.tsx lines 322-330): abort and drop the
controller if one is registered, and set every entry with this id to
`status: 'paused', speed: 0` - the source performs this state update
unconditionally, with no check of the item's current status. -/
def pauseDownload (id : String) (s : AppState) : AppState :=
  { s with
    active := s.active.filter (fun a => a ≠ id),
    downloads := s.downloads.map (fun d =>
      if d.movieId = id then { d with status := Status.paused, speed := 0 } else d) }

/-- `deleteDownload(movieId, removeMetadata)` (src/App.tsx lines 332-352):
abort and drop any live controller, try to delete the blob - a `deleteVideo`
failure is caught and only logged (`delOk` says whether the delete succeeded) -
and, when `removeMetadata` is set, filter the entry out of `downloads`. -/
def deleteDownload (id : String) (removeMetadata : Bool) (delOk : Bool) (s : AppState) :
    AppState :=
  let s1 : AppState :=
    { s with
      active := s.active.filter (fun a => a ≠ id),
      store := if delOk then storeDelete s.store id else s.store }
  if removeMetadata then
    { s1 with downloads := s1.downloads.filter (fun d => d.movieId ≠ id) }
  else s1

/-- The fresh `DownloadItem` literal built by `requestDownload`
(src/App.tsx lines 207-215). -/
def newItem (id : String) (now : ℤ) (activeCount : ℕ) : DownloadItem :=
  { movieId := id
    progress := 0
    status := if activeCount = 0 then Status.downloading else Status.queued
    expiry := now + 172800000
    totalSizeMB := 0
    downloadedSizeMB := 0
    speed := 0 }

/-- The tail of `requestDownload` after the existing-entry check
(src/App.tsx lines 205-231): compute the active count, append the new entry
(replacing any entry with the same id), and, when the slot is free, run the
synchronous prefix of `executeDownload`. -/
def requestCore (id : String) (now : ℤ) (s : AppState) : AppState :=
  let activeCount := countDownloading s.downloads
  let s1 : AppState :=
    { s with downloads :=
        s.downloads.filter (fun d => d.movieId ≠ id) ++ [newItem id now activeCount] }
  if activeCount = 0 then executeStart id s1 else s1

/-- `requestDownload(movie)` (src/App.tsx lines 194-232): an existing entry
that is not `paused` makes the request a no-op; an existing `paused` entry is
first cleared via `deleteDownload(movie.id, false)` (partial blob discarded,
metadata kept); then the request is admitted by `requestCore`. -/
def requestDownload (id : String) (now : ℤ) (delOk : Bool) (s : AppState) : AppState :=
  match findItem s.downloads id with
  | some existing =>
    if existing.status = Status.paused then
      requestCore id now (deleteDownload id false delOk s)
    else s
  | none => requestCore id now s

/-- The queue-processor effect (src/App.tsx lines 111-123): when no item is
`downloading`, find the first `queued` entry, look its movie up in the catalog,
and start `executeDownload` for it.  `catalog` is the list of ids of the
`movies` state array. -/
def reconcile (catalog : List String) (s : AppState) : AppState :=
  if countDownloading s.downloads = 0 then
    match List.find? (fun d => d.status = Status.queued) s.downloads with
    | some next => if next.movieId ∈ catalog then executeStart next.movieId s else s
    | none => s
  else s

/-- The `AbortError` branch of `executeDownload`'s catch
(src/App.tsx lines 304-309): only entries for this id whose status is still
`'downloading'` are rewritten to `status: 'paused', speed: 0`. -/
def abortHandler (id : String) (s : AppState) : AppState :=
  { s with downloads := s.downloads.map (fun d =>
      if d.movieId = id ∧ d.status = Status.downloading then
        { d with status := Status.paused, speed := 0 }
      else d) }

/-- The generic-error branch of `executeDownload`'s catch
(src/App.tsx lines 310-316): every entry for this id is rewritten to
`status: 'failed', speed: 0` (no status guard in the source). -/
def errorHandler (id : String) (s : AppState) : AppState :=
  { s with downloads := s.downloads.map (fun d =>
      if d.movieId = id then { d with status := Status.failed, speed := 0 } else d) }

/-- The success tail of `executeDownload` (src/App.tsx lines 294-301): after
`saveVideo` resolves, set `status: 'completed', progress: 100, speed: 0`. -/
def completeHandler (id : String) (s : AppState) : AppState :=
  { s with downloads := s.downloads.map (fun d =>
      if d.movieId = id then
        { d with status := Status.completed, progress := 100, speed := 0 }
      else d) }

/-- The `finally` block of `executeDownload` (src/App.tsx lines 317-319):
`activeDownloadsRef.current.delete(movie.id)`. -/
def releaseHandle (id : String) (s : AppState) : AppState :=
  { s with active := s.active.filter (fun a => a ≠ id) }

/-- `clearCompleted`'s deletion loop (src/App.tsx lines 388-391): `deleteVideo`
is awaited for each completed id in order, with no `try/catch` around it - the
first failing delete rejects the whole `clearCompleted` call.  `delOk` is the
spec's Blob Store failure model (which ids' deletes succeed).  Returns the
store after the deletes that did run, and whether the loop finished. -/
def deleteBlobsLoop (delOk : String → Bool) (ids : List String) (st : Store) :
    Store × Bool :=
  match ids with
  | [] => (st, true)
  | id :: rest =>
    if delOk id then deleteBlobsLoop delOk rest (storeDelete st id)
    else (st, false)

/-- `clearCompleted()` (src/App.tsx lines 387-395): delete the blob of every
`completed` entry in order; only if every delete resolved does control reach
the `setDownloads` that filters out the completed metadata.  The boolean
records whether the call ran to completion or rejected. -/
def clearCompleted (delOk : String → Bool) (s : AppState) : AppState × Bool :=
  let completedIds := (s.downloads.filter (fun d => d.status = Status.completed)).map
    (fun d => d.movieId)
  let r := deleteBlobsLoop delOk completedIds s.store
  if r.2 then
    ({ s with store := r.1,
              downloads := s.downloads.filter (fun d => ¬ d.status = Status.completed) },
     true)
  else ({ s with store := r.1 }, false)

/-- One `reader.read()` result inside `executeDownload`'s loop: the chunk's
byte length (`value.length`) and the wall-clock time `Date.now()` observed
right after it arrived. -/
structure Chunk where
  len : ℕ
  time : ℤ
deriving DecidableEq, Repr

/-- The throttled `setDownloads` publish inside the loop
(src/App.tsx lines 279-287). -/
def publishUpdate (id : String) (progress downloadedSizeMB totalSizeMB speed : ℚ)
    (ds : List DownloadItem) : List DownloadItem :=
  ds.map (fun d =>
    if d.movieId = id then
      { d with progress := progress, downloadedSizeMB := downloadedSizeMB,
               totalSizeMB := totalSizeMB, speed := speed }
    else d)

/-- The chunk-accumulation loop of `executeDownload`
(src/App.tsx lines 257-292): fold the chunk reads over the accumulator
(`receivedLength`, `lastTime`, `lastReceived`), publishing progress, sizes and
speed at most once per 800 ms interval.  Returns the final `receivedLength`
and the `downloads` array after the published updates. -/
def chunkLoop (id : String) (totalLength : ℕ) :
    List Chunk → ℕ → ℤ → ℕ → List DownloadItem → ℕ × List DownloadItem
  | [], recv, _, _, ds => (recv, ds)
  | c :: rest, recv, lastTime, lastReceived, ds =>
    let recv' := recv + c.len
    let currentSizeMB : ℚ := (recv' : ℚ) / (1024 * 1024)
    if c.time - lastTime > 800 then
      let bytesDiff : ℚ := (recv' : ℚ) - (lastReceived : ℚ)
      let timeDiff : ℚ := ((c.time - lastTime : ℤ) : ℚ) / 1000
      let speed : ℚ := (bytesDiff / (1024 * 1024)) / timeDiff
      let progress : ℚ :=
        if 0 < totalLength then ((recv' : ℚ) / (totalLength : ℚ)) * 100 else 0
      let totalMB : ℚ :=
        if 0 < totalLength then (totalLength : ℚ) / (1024 * 1024) else currentSizeMB
      chunkLoop id totalLength rest recv' c.time recv'
        (publishUpdate id progress currentSizeMB totalMB speed ds)
    else
      chunkLoop id totalLength rest recv' lastTime lastReceived ds

/-- How one `executeDownload` run ends: the stream is exhausted and
`saveVideo` either resolves or rejects, the read loop is interrupted by the
abort signal (`err.name === 'AbortError'`), or any other condition is thrown. -/
inductive TransferEnd where
  | finished (saveOk : Bool)
  | aborted
  | netError
deriving DecidableEq, Repr

/-- The state of an `executeDownload(movie)` run right before the read loop:
the synchronous prefix plus, when the server reported a `Content-Length`, the
`totalSizeMB` publish (src/App.tsx lines 235-255). -/
def preState (id : String) (totalLength : ℕ) (s : AppState) : AppState :=
  let s1 := executeStart id s
  if 0 < totalLength then
    { s1 with downloads := s1.downloads.map (fun d =>
        if d.movieId = id then
          { d with totalSizeMB := (totalLength : ℚ) / (1024 * 1024) }
        else d) }
  else s1

/-- The part of an `executeDownload(movie)` run before its end is decided
(src/App.tsx lines 235-292): the pre-loop state followed by the chunk loop.
Returns the final `receivedLength` together with the state after the
published updates. -/
def transferPrefix (id : String) (totalLength : ℕ) (t0 : ℤ) (chunks : List Chunk)
    (s : AppState) : ℕ × AppState :=
  let s2 := preState id totalLength s
  let r := chunkLoop id totalLength chunks 0 t0 0 s2.downloads
  (r.1, { s2 with downloads := r.2 })

/-- One whole `executeDownload(movie)` run (src/App.tsx lines 235-320),
described by the `Content-Length` the server reported (`totalLength`, 0 when
absent), the time `t0` at which the loop was set up, the chunks the reader
delivered before the run ended, and how it ended.  Composes the prefix, the
terminating branch, and the `finally` release of the controller. -/
def executeDownload (id : String) (totalLength : ℕ) (t0 : ℤ) (chunks : List Chunk)
    (outcome : TransferEnd) (s : AppState) : AppState :=
  let p := transferPrefix id totalLength t0 chunks s
  match outcome with
  | TransferEnd.finished saveOk =>
    if saveOk then
      releaseHandle id (completeHandler id { p.2 with store := storePut p.2.store id p.1 })
    else
      releaseHandle id (errorHandler id p.2)
  | TransferEnd.aborted => releaseHandle id (abortHandler id p.2)
  | TransferEnd.netError => releaseHandle id (errorHandler id p.2)

/-- The status of the tracked entry for an id, as the UI observes it. -/
def statusOf (s : AppState) (id : String) : Option Status :=
  (findItem s.downloads id).map (fun d => d.status)

/-- The `speed` field of the tracked entry for an id. -/
def speedOf (s : AppState) (id : String) : Option ℚ :=
  (findItem s.downloads id).map (fun d => d.speed)

/-- The `progress` field of the tracked entry for an id. -/
def progressOf (s : AppState) (id : String) : Option ℚ :=
  (findItem s.downloads id).map (fun d => d.progress)

/-- The `downloadedSizeMB` field of the tracked entry for an id. -/
def downloadedOf (s : AppState) (id : String) : Option ℚ :=
  (findItem s.downloads id).map (fun d => d.downloadedSizeMB)

/-- The shape persisted to `localStorage` for one item.
`JSON.stringify(downloads)` (src/App.tsx lines 96-98) serializes every own
field of the object, `speed` included. -/
structure StoredItem where
  movieId : String
  progress : ℚ
  status : Status
  expiry : ℤ
  totalSizeMB : ℚ
  downloadedSizeMB : ℚ
  speed : ℚ
deriving DecidableEq, Repr

/-- The per-item content of `JSON.stringify` in the persistence effect
(src/App.tsx lines 96-98): every field is written out verbatim. -/
def persistItem (d : DownloadItem) : StoredItem :=
  { movieId := d.movieId
    progress := d.progress
    status := d.status
    expiry := d.expiry
    totalSizeMB := d.totalSizeMB
    downloadedSizeMB := d.downloadedSizeMB
    speed := d.speed }

/-- The downloads initializer (src/App.tsx lines 49-52):
`JSON.parse(saved)` returns the stored items verbatim - no field is dropped
and no status is reinterpreted on load. -/
def loadItem (sd : StoredItem) : DownloadItem :=
  { movieId := sd.movieId
    progress := sd.progress
    status := sd.status
    expiry := sd.expiry
    totalSizeMB := sd.totalSizeMB
    downloadedSizeMB := sd.downloadedSizeMB
    speed := sd.speed }

/-- One atomic step of the queue manager, as observed on the `downloads`
state: the user-facing operations, the queue-processor effect, a throttled
progress publish of a running transfer, and the three ways a transfer's
continuation lands back in the state. -/
inductive Op where
  | request (id : String) (now : ℤ) (delOk : Bool)
  | pause (id : String)
  | remove (id : String) (delOk : Bool)
  | clear (delOk : String → Bool)
  | process (catalog : List String)
  | publish (id : String) (progress downloadedSizeMB totalSizeMB speed : ℚ)
  | finishSaved (id : String) (blobSize : ℕ)
  | finishAborted (id : String)
  | finishFailed (id : String)

/-- Apply one operation to the state, exactly as the corresponding source
handler does. -/
def stepOp (s : AppState) : Op → AppState
  | Op.request id now delOk => requestDownload id now delOk s
  | Op.pause id => pauseDownload id s
  | Op.remove id delOk => deleteDownload id true delOk s
  | Op.clear delOk => (clearCompleted delOk s).1
  | Op.process catalog => reconcile catalog s
  | Op.publish id p dm tm sp =>
    { s with downloads := publishUpdate id p dm tm sp s.downloads }
  | Op.finishSaved id blobSize =>
    releaseHandle id (completeHandler id { s with store := storePut s.store id blobSize })
  | Op.finishAborted id => releaseHandle id (abortHandler id s)
  | Op.finishFailed id => releaseHandle id (errorHandler id s)

/-- Run a sequence of operations. -/
def runOps (s : AppState) (ops : List Op) : AppState :=
  ops.foldl stepOp s

/-- The empty initial state: no tracked items, no controllers, empty store. -/
def initState : AppState :=
  { downloads := [], active := [], store := [] }

/-- At most one `DownloadItem` per `movieId` is tracked. -/
def UniqueIds (ds : List DownloadItem) : Prop :=
  (ds.map (fun d => d.movieId)).Nodup

/-- The queue manager's invariant: ids are unique and at most one item is
`downloading`. -/
def Inv (s : AppState) : Prop :=
  UniqueIds s.downloads ∧ countDownloading s.downloads ≤ 1

/-! ### Basic lemmas about the embedded operations -/

lemma findItem_map (f : DownloadItem → DownloadItem)
    (hf : ∀ d, (f d).movieId = d.movieId) (ds : List DownloadItem) (id : String) :
    findItem (ds.map f) id = (findItem ds id).map f := by
  induction ds with
  | nil => rfl
  | cons d t ih =>
    by_cases h : d.movieId = id
    · simp [findItem, hf, h]
    · simp only [findItem, List.map_cons] at *
      rw [List.find?_cons_of_neg, List.find?_cons_of_neg, ih]
      · simp [h]
      · simp [hf, h]

lemma findItem_filter_ne (ds : List DownloadItem) (id : String) :
    findItem (ds.filter (fun d => d.movieId ≠ id)) id = none := by
  rw [findItem, List.find?_eq_none]
  intro d hd
  have := (List.mem_filter.mp hd).2
  simp at this ⊢
  exact this

lemma findItem_eq_none_iff (ds : List DownloadItem) (id : String) :
    findItem ds id = none ↔ ∀ d ∈ ds, d.movieId ≠ id := by
  rw [findItem, List.find?_eq_none]
  simp

lemma map_eq_self_of_not_found (f : DownloadItem → DownloadItem) (ds : List DownloadItem)
    (id : String) (hid : ∀ d, d.movieId ≠ id → f d = d)
    (h : findItem ds id = none) : ds.map f = ds := by
  rw [findItem_eq_none_iff] at h
  calc ds.map f = ds.map (fun d => d) := List.map_congr_left (fun d hd => hid d (h d hd))
    _ = ds := List.map_id' ds

lemma countDownloading_nil : countDownloading [] = 0 := rfl

lemma countDownloading_map_le (f : DownloadItem → DownloadItem)
    (h : ∀ d, (f d).status = Status.downloading → d.status = Status.downloading)
    (ds : List DownloadItem) :
    countDownloading (ds.map f) ≤ countDownloading ds := by
  simp only [countDownloading, List.countP_map]
  refine List.countP_mono_left (fun d _ hd => ?_)
  simp only [Function.comp_apply, decide_eq_true_eq] at hd ⊢
  exact h d hd

lemma countDownloading_filter_le (p : DownloadItem → Bool) (ds : List DownloadItem) :
    countDownloading (ds.filter p) ≤ countDownloading ds := by
  exact (List.filter_sublist ds).countP_le _

lemma countP_or_le (p q : DownloadItem → Bool) (l : List DownloadItem) :
    List.countP (fun a => p a || q a) l ≤ List.countP p l + List.countP q l := by
  induction l with
  | nil => simp
  | cons a t ih =>
    simp only [List.countP_cons]
    by_cases hp : p a <;> by_cases hq : q a <;> simp [hp, hq] <;> omega

lemma countP_movieId_le_one (id : String) (ds : List DownloadItem)
    (h : UniqueIds ds) :
    List.countP (fun d => d.movieId = id) ds ≤ 1 := by
  induction ds with
  | nil => simp
  | cons d t ih =>
    simp only [UniqueIds, List.map_cons, List.nodup_cons] at h
    simp only [List.countP_cons]
    by_cases hd : d.movieId = id
    · have ht : List.countP (fun d : DownloadItem => decide (d.movieId = id)) t = 0 := by
        rw [List.countP_eq_zero]
        intro a ha
        simp only [decide_eq_true_eq]
        intro hEq
        exact h.1 (by rw [hd, ← hEq]; exact List.mem_map_of_mem _ ha)
      simp [hd, ht]
    · simpa [hd] using ih h.2

/-- Bound for the executeStart map: each resulting `downloading` entry either
carries the started id or was already downloading with a different id. -/
lemma countDownloading_executeStart_map (id : String) (ds : List DownloadItem) :
    countDownloading (ds.map (fun d =>
      if d.movieId = id then { d with status := Status.downloading } else d))
      ≤ List.countP (fun d => d.movieId = id) ds
        + List.countP (fun d => ¬ d.movieId = id ∧ d.status = Status.downloading) ds := by
  simp only [countDownloading, List.countP_map]
  refine le_trans (le_trans (List.countP_mono_left (fun d _ hd => ?_)) (countP_or_le _ _ ds))
    (le_refl _)
  simp only [Function.comp_apply, decide_eq_true_eq] at hd
  by_cases h : d.movieId = id
  · simp [h]
  · simp only [h, if_false] at hd
    simp [h, hd]

lemma uniqueIds_map (f : DownloadItem → DownloadItem)
    (hf : ∀ d, (f d).movieId = d.movieId) (ds : List DownloadItem)
    (h : UniqueIds ds) : UniqueIds (ds.map f) := by
  have heq : (ds.map f).map (fun d => d.movieId) = ds.map (fun d => d.movieId) := by
    rw [List.map_map]
    exact List.map_congr_left (fun d _ => hf d)
  unfold UniqueIds at h ⊢
  rw [heq]
  exact h

lemma uniqueIds_filter (p : DownloadItem → Bool) (ds : List DownloadItem)
    (h : UniqueIds ds) : UniqueIds (ds.filter p) :=
  List.Nodup.sublist (List.Sublist.map _ (List.filter_sublist ds)) h

lemma uniqueIds_requestCore_list (id : String) (now : ℤ) (c : ℕ) (ds : List DownloadItem)
    (h : UniqueIds ds) :
    UniqueIds (ds.filter (fun d => d.movieId ≠ id) ++ [newItem id now c]) := by
  have hfil : UniqueIds (ds.filter (fun d => d.movieId ≠ id)) :=
    uniqueIds_filter _ ds h
  simp only [UniqueIds, List.map_append, List.map_cons, List.map_nil] at hfil ⊢
  rw [List.nodup_append]
  refine ⟨hfil, List.nodup_singleton _, ?_⟩
  intro a ha hb
  simp only [newItem, List.mem_singleton] at hb
  obtain ⟨d, hd, rfl⟩ := List.mem_map.mp ha
  have := (List.mem_filter.mp hd).2
  simp only [decide_eq_true_eq] at this
  exact this (by simpa using hb)

lemma countDownloading_append (l₁ l₂ : List DownloadItem) :
    countDownloading (l₁ ++ l₂) = countDownloading l₁ + countDownloading l₂ :=
  List.countP_append _ _ _

lemma countP_id_filter_ne (id : String) (ds : List DownloadItem) :
    List.countP (fun d => d.movieId = id) (ds.filter (fun d => d.movieId ≠ id)) = 0 := by
  rw [List.countP_eq_zero]
  intro d hd
  have := (List.mem_filter.mp hd).2
  simp only [decide_eq_true_eq] at this ⊢
  exact this

lemma requestCore_of_zero (id : String) (now : ℤ) (s : AppState)
    (h0 : countDownloading s.downloads = 0) :
    requestCore id now s = executeStart id
      { s with downloads := s.downloads.filter (fun d => d.movieId ≠ id)
          ++ [newItem id now (countDownloading s.downloads)] } := by
  simp only [requestCore]
  rw [if_pos h0]

lemma requestCore_of_ne_zero (id : String) (now : ℤ) (s : AppState)
    (h0 : countDownloading s.downloads ≠ 0) :
    requestCore id now s =
      { s with downloads := s.downloads.filter (fun d => d.movieId ≠ id)
          ++ [newItem id now (countDownloading s.downloads)] } := by
  simp only [requestCore]
  rw [if_neg h0]

lemma deleteDownload_keepMeta (id : String) (delOk : Bool) (s : AppState) :
    deleteDownload id false delOk s =
      { s with active := s.active.filter (fun a => a ≠ id),
               store := if delOk then storeDelete s.store id else s.store } := by
  simp [deleteDownload]

lemma deleteDownload_removeMeta (id : String) (delOk : Bool) (s : AppState) :
    deleteDownload id true delOk s =
      { s with active := s.active.filter (fun a => a ≠ id),
               store := if delOk then storeDelete s.store id else s.store,
               downloads := s.downloads.filter (fun d => d.movieId ≠ id) } := by
  simp [deleteDownload]

lemma inv_executeStart (id : String) (s : AppState)
    (hU : UniqueIds s.downloads)
    (h1 : List.countP (fun d => d.movieId = id) s.downloads ≤ 1)
    (h2 : List.countP (fun d => ¬ d.movieId = id ∧ d.status = Status.downloading)
      s.downloads = 0) :
    Inv (executeStart id s) := by
  constructor
  · exact uniqueIds_map _ (fun d => by by_cases hd : d.movieId = id <;> simp [hd]) _ hU
  · refine le_trans (countDownloading_executeStart_map id s.downloads) ?_
    omega

lemma inv_requestCore (id : String) (now : ℤ) (s : AppState) (h : Inv s) :
    Inv (requestCore id now s) := by
  obtain ⟨hU, hC⟩ := h
  set c := countDownloading s.downloads with hc
  have hUl : UniqueIds (s.downloads.filter (fun d => d.movieId ≠ id) ++ [newItem id now c]) :=
    uniqueIds_requestCore_list id now c s.downloads hU
  by_cases h0 : c = 0
  · rw [requestCore_of_zero id now s (by rw [← hc]; exact h0)]
    refine inv_executeStart id _ hUl ?_ ?_
    · show List.countP (fun d => d.movieId = id)
        (s.downloads.filter (fun d => d.movieId ≠ id) ++ [newItem id now c]) ≤ 1
      rw [List.countP_append, countP_id_filter_ne]
      simp [newItem]
    · show List.countP (fun d => ¬ d.movieId = id ∧ d.status = Status.downloading)
        (s.downloads.filter (fun d => d.movieId ≠ id) ++ [newItem id now c]) = 0
      rw [List.countP_eq_zero]
      intro d hd
      simp only [decide_eq_true_eq, not_and]
      intro hne hdl
      rcases List.mem_append.mp hd with hm | hm
      · have hcnt : countDownloading (s.downloads.filter (fun d => d.movieId ≠ id)) = 0 := by
          have := countDownloading_filter_le (fun d => d.movieId ≠ id) s.downloads
          omega
        rw [countDownloading, List.countP_eq_zero] at hcnt
        have := hcnt d hm
        simp only [decide_eq_true_eq] at this
        exact this hdl
      · simp only [List.mem_singleton] at hm
        exact hne (by rw [hm]; rfl)
  · rw [requestCore_of_ne_zero id now s (by rw [← hc]; exact h0)]
    refine ⟨hUl, ?_⟩
    show countDownloading (s.downloads.filter (fun d => d.movieId ≠ id) ++ [newItem id now c]) ≤ 1
    rw [countDownloading_append]
    have hnew : countDownloading [newItem id now c] = 0 := by
      simp [countDownloading, newItem, h0]
    have := countDownloading_filter_le (fun d => d.movieId ≠ id) s.downloads
    omega

lemma inv_executeStart_of_zero (id : String) (s : AppState)
    (hU : UniqueIds s.downloads) (h0 : countDownloading s.downloads = 0) :
    Inv (executeStart id s) := by
  refine inv_executeStart id s hU (countP_movieId_le_one id s.downloads hU) ?_
  rw [List.countP_eq_zero]
  intro d hd
  rw [countDownloading, List.countP_eq_zero] at h0
  have := h0 d hd
  simp only [decide_eq_true_eq] at this ⊢
  exact fun hx => this hx.2

lemma inv_map_demote (f : DownloadItem → DownloadItem)
    (hid : ∀ d, (f d).movieId = d.movieId)
    (hst : ∀ d, (f d).status = Status.downloading → d.status = Status.downloading)
    (s : AppState) (ac : List String) (st : Store) (h : Inv s) :
    Inv { downloads := s.downloads.map f, active := ac, store := st } := by
  exact ⟨uniqueIds_map f hid _ h.1, le_trans (countDownloading_map_le f hst _) h.2⟩

lemma inv_filter (p : DownloadItem → Bool) (s : AppState) (ac : List String) (st : Store)
    (h : Inv s) :
    Inv { downloads := s.downloads.filter p, active := ac, store := st } :=
  ⟨uniqueIds_filter p _ h.1, le_trans (countDownloading_filter_le p _) h.2⟩

lemma inv_stepOp (s : AppState) (op : Op) (h : Inv s) : Inv (stepOp s op) := by
  cases op with
  | request id now delOk =>
    show Inv (requestDownload id now delOk s)
    unfold requestDownload
    cases hf : findItem s.downloads id with
    | none => exact inv_requestCore id now s h
    | some existing =>
      dsimp only
      by_cases hp : existing.status = Status.paused
      · rw [if_pos hp, deleteDownload_keepMeta]
        exact inv_requestCore id now _ h
      · rw [if_neg hp]
        exact h
  | pause id =>
    refine inv_map_demote _ (fun d => ?_) (fun d => ?_) s _ _ h <;>
      by_cases hd : d.movieId = id <;> simp [hd]
  | remove id delOk =>
    show Inv (deleteDownload id true delOk s)
    rw [deleteDownload_removeMeta]
    exact inv_filter _ s _ _ h
  | clear delOk =>
    show Inv (clearCompleted delOk s).1
    unfold clearCompleted
    by_cases hr : (deleteBlobsLoop delOk
        ((s.downloads.filter (fun d => d.status = Status.completed)).map
          (fun d => d.movieId)) s.store).2 = true
    · simp only [hr, if_pos]
      exact inv_filter _ s _ _ h
    · simp only [if_neg hr]
      exact h
  | process catalog =>
    simp only [stepOp, reconcile]
    by_cases h0 : countDownloading s.downloads = 0
    · simp only [h0, if_pos rfl]
      cases hf : List.find? (fun d => d.status = Status.queued) s.downloads with
      | none => exact h
      | some next =>
        by_cases hc : next.movieId ∈ catalog
        · simp only [hc, if_pos hc]
          exact inv_executeStart_of_zero next.movieId s h.1 h0
        · simp only [if_neg hc]
          exact h
    · simp only [if_neg h0]
      exact h
  | publish id p dm tm sp =>
    refine inv_map_demote _ (fun d => ?_) (fun d => ?_) s _ _ h <;>
      by_cases hd : d.movieId = id <;> simp [hd]
  | finishSaved id blobSize =>
    refine inv_map_demote _ (fun d => ?_) (fun d => ?_) s _ _ h <;>
      by_cases hd : d.movieId = id <;> simp [hd]
  | finishAborted id =>
    refine inv_map_demote _ (fun d => ?_) (fun d => ?_) s _ _ h <;>
      by_cases hd : d.movieId = id ∧ d.status = Status.downloading <;> simp [hd]
  | finishFailed id =>
    refine inv_map_demote _ (fun d => ?_) (fun d => ?_) s _ _ h <;>
      by_cases hd : d.movieId = id <;> simp [hd]

lemma inv_runOps (ops : List Op) (s : AppState) (h : Inv s) : Inv (runOps s ops) := by
  induction ops generalizing s with
  | nil => exact h
  | cons op rest ih => exact ih (stepOp s op) (inv_stepOp s op h)

lemma inv_initState : Inv initState := by
  constructor <;> simp [initState, UniqueIds, countDownloading]

/-! ### The chunk loop: received bytes and shape of the published state -/

lemma chunkLoop_fst (id : String) (totalLength : ℕ) (chunks : List Chunk) :
    ∀ (recv : ℕ) (lastTime : ℤ) (lastReceived : ℕ) (ds : List DownloadItem),
      (chunkLoop id totalLength chunks recv lastTime lastReceived ds).1
        = recv + (chunks.map (fun c => c.len)).sum := by
  induction chunks with
  | nil => intro recv lt lr ds; simp [chunkLoop]
  | cons c rest ih =>
    intro recv lt lr ds
    by_cases ht : c.time - lt > 800
    · rw [chunkLoop, if_pos ht, ih]
      simp [Nat.add_assoc]
    · rw [chunkLoop, if_neg ht, ih]
      simp [Nat.add_assoc]

lemma publishUpdate_eq_map (id : String) (p dm tm sp : ℚ) (ds : List DownloadItem) :
    publishUpdate id p dm tm sp ds = ds.map (fun d =>
      if d.movieId = id then
        { d with progress := p, downloadedSizeMB := dm, totalSizeMB := tm, speed := sp }
      else d) := rfl

lemma chunkLoop_snd_map (id : String) (totalLength : ℕ) (chunks : List Chunk) :
    ∀ (recv : ℕ) (lastTime : ℤ) (lastReceived : ℕ) (ds : List DownloadItem),
      ∃ g : DownloadItem → DownloadItem,
        (chunkLoop id totalLength chunks recv lastTime lastReceived ds).2 = ds.map g
        ∧ (∀ d, (g d).movieId = d.movieId) ∧ (∀ d, (g d).status = d.status) := by
  induction chunks with
  | nil =>
    intro recv lt lr ds
    exact ⟨fun d => d, by simp [chunkLoop], fun d => rfl, fun d => rfl⟩
  | cons c rest ih =>
    intro recv lt lr ds
    by_cases ht : c.time - lt > 800
    · obtain ⟨g, hg, hgid, hgst⟩ := ih (recv + c.len) c.time (recv + c.len) (publishUpdate id
        (if 0 < totalLength then (((recv + c.len : ℕ) : ℚ) / (totalLength : ℚ)) * 100 else 0)
        (((recv + c.len : ℕ) : ℚ) / (1024 * 1024))
        (if 0 < totalLength then (totalLength : ℚ) / (1024 * 1024)
          else ((recv + c.len : ℕ) : ℚ) / (1024 * 1024))
        (((((recv + c.len : ℕ) : ℚ) - (lr : ℚ)) / (1024 * 1024)) /
          (((c.time - lt : ℤ) : ℚ) / 1000)) ds)
      rw [chunkLoop, if_pos ht]
      rw [publishUpdate_eq_map, List.map_map] at hg
      refine ⟨_, hg, fun d => ?_, fun d => ?_⟩
      · rw [Function.comp_apply, hgid]
        by_cases hd : d.movieId = id <;> simp [hd]
      · rw [Function.comp_apply, hgst]
        by_cases hd : d.movieId = id <;> simp [hd]
    · obtain ⟨g, hg, hgid, hgst⟩ := ih (recv + c.len) lt lr ds
      rw [chunkLoop, if_neg ht]
      exact ⟨g, hg, hgid, hgst⟩

/-! ### The transfer prefix: store untouched, entry kept downloading -/

lemma preState_store (id : String) (totalLength : ℕ) (s : AppState) :
    (preState id totalLength s).store = s.store := by
  unfold preState
  by_cases h : 0 < totalLength <;> simp [h, executeStart]

lemma transferPrefix_store (id : String) (totalLength : ℕ) (t0 : ℤ) (chunks : List Chunk)
    (s : AppState) :
    (transferPrefix id totalLength t0 chunks s).2.store = s.store :=
  preState_store id totalLength s

lemma transferPrefix_fst (id : String) (totalLength : ℕ) (t0 : ℤ) (chunks : List Chunk)
    (s : AppState) :
    (transferPrefix id totalLength t0 chunks s).1 = (chunks.map (fun c => c.len)).sum := by
  show (chunkLoop id totalLength chunks 0 t0 0 _).1 = _
  rw [chunkLoop_fst]
  simp

lemma findItem_movieId (ds : List DownloadItem) (id : String) (d : DownloadItem)
    (h : findItem ds id = some d) : d.movieId = id := by
  have := List.find?_some h
  simpa using this

lemma findItem_executeStart (s : AppState) (id : String) (d : DownloadItem)
    (hd : findItem s.downloads id = some d) :
    findItem (executeStart id s).downloads id = some { d with status := Status.downloading } := by
  show findItem (s.downloads.map _) id = _
  rw [findItem_map _ (fun x => by by_cases hx : x.movieId = id <;> simp [hx]) , hd]
  simp [findItem_movieId _ _ _ hd]

lemma preState_findItem (id : String) (totalLength : ℕ) (s : AppState) (d : DownloadItem)
    (hd : findItem s.downloads id = some d) :
    ∃ d2, findItem (preState id totalLength s).downloads id = some d2
      ∧ d2.status = Status.downloading ∧ d2.movieId = id := by
  have h1 := findItem_executeStart s id d hd
  have hid : d.movieId = id := findItem_movieId _ _ _ hd
  unfold preState
  by_cases h : 0 < totalLength
  · rw [if_pos h]
    show ∃ d2, findItem ((executeStart id s).downloads.map _) id = some d2 ∧ _
    rw [findItem_map _ (fun x => by by_cases hx : x.movieId = id <;> simp [hx]) , h1]
    exact ⟨_, rfl, by simp [hid], by simp [hid]⟩
  · rw [if_neg h]
    exact ⟨_, h1, rfl, hid⟩

lemma transferPrefix_findItem (id : String) (totalLength : ℕ) (t0 : ℤ) (chunks : List Chunk)
    (s : AppState) (d : DownloadItem) (hd : findItem s.downloads id = some d) :
    ∃ d', findItem (transferPrefix id totalLength t0 chunks s).2.downloads id = some d'
      ∧ d'.status = Status.downloading ∧ d'.movieId = id := by
  obtain ⟨d2, hd2, hst2, hid2⟩ := preState_findItem id totalLength s d hd
  obtain ⟨g, hg, hgid, hgst⟩ := chunkLoop_snd_map id totalLength chunks 0 t0 0
    (preState id totalLength s).downloads
  refine ⟨g d2, ?_, ?_, ?_⟩
  · show findItem (chunkLoop id totalLength chunks 0 t0 0
      (preState id totalLength s).downloads).2 id = some (g d2)
    rw [hg, findItem_map g hgid, hd2]
    rfl
  · rw [hgst]; exact hst2
  · rw [hgid]; exact hid2

/-! ### The terminating branches, observed through `findItem` -/

lemma findItem_abortHandler_of_downloading (s : AppState) (id : String) (d : DownloadItem)
    (h : findItem s.downloads id = some d) (hdl : d.status = Status.downloading) :
    findItem (abortHandler id s).downloads id
      = some { d with status := Status.paused, speed := 0 } := by
  show findItem (s.downloads.map _) id = _
  rw [findItem_map _ (fun x => by
    by_cases hx : x.movieId = id ∧ x.status = Status.downloading <;> simp [hx]) , h]
  simp [findItem_movieId _ _ _ h, hdl]

lemma findItem_errorHandler (s : AppState) (id : String) (d : DownloadItem)
    (h : findItem s.downloads id = some d) :
    findItem (errorHandler id s).downloads id
      = some { d with status := Status.failed, speed := 0 } := by
  show findItem (s.downloads.map _) id = _
  rw [findItem_map _ (fun x => by by_cases hx : x.movieId = id <;> simp [hx]) , h]
  simp [findItem_movieId _ _ _ h]

lemma findItem_completeHandler (s : AppState) (id : String) (d : DownloadItem)
    (h : findItem s.downloads id = some d) :
    findItem (completeHandler id s).downloads id
      = some { d with status := Status.completed, progress := 100, speed := 0 } := by
  show findItem (s.downloads.map _) id = _
  rw [findItem_map _ (fun x => by by_cases hx : x.movieId = id <;> simp [hx]) , h]
  simp [findItem_movieId _ _ _ h]

lemma findItem_complete_map (ds : List DownloadItem) (id : String) (d : DownloadItem)
    (h : findItem ds id = some d) :
    findItem (ds.map (fun x => if x.movieId = id then
      { x with status := Status.completed, progress := 100, speed := 0 } else x)) id
      = some { d with status := Status.completed, progress := 100, speed := 0 } := by
  rw [findItem_map _ (fun x => by by_cases hx : x.movieId = id <;> simp [hx]) , h]
  simp [findItem_movieId _ _ _ h]

lemma releaseHandle_downloads (id : String) (s : AppState) :
    (releaseHandle id s).downloads = s.downloads := rfl

lemma abortHandler_store (id : String) (s : AppState) :
    (abortHandler id s).store = s.store := rfl

lemma errorHandler_store (id : String) (s : AppState) :
    (errorHandler id s).store = s.store := rfl

lemma executeDownload_aborted_eq (id : String) (totalLength : ℕ) (t0 : ℤ)
    (chunks : List Chunk) (s : AppState) :
    executeDownload id totalLength t0 chunks TransferEnd.aborted s
      = releaseHandle id (abortHandler id (transferPrefix id totalLength t0 chunks s).2) :=
  rfl

lemma executeDownload_netError_eq (id : String) (totalLength : ℕ) (t0 : ℤ)
    (chunks : List Chunk) (s : AppState) :
    executeDownload id totalLength t0 chunks TransferEnd.netError s
      = releaseHandle id (errorHandler id (transferPrefix id totalLength t0 chunks s).2) :=
  rfl

lemma executeDownload_saveFail_eq (id : String) (totalLength : ℕ) (t0 : ℤ)
    (chunks : List Chunk) (s : AppState) :
    executeDownload id totalLength t0 chunks (TransferEnd.finished false) s
      = releaseHandle id (errorHandler id (transferPrefix id totalLength t0 chunks s).2) :=
  rfl

lemma executeDownload_saveOk_eq (id : String) (totalLength : ℕ) (t0 : ℤ)
    (chunks : List Chunk) (s : AppState) :
    executeDownload id totalLength t0 chunks (TransferEnd.finished true) s
      = releaseHandle id (completeHandler id
          { (transferPrefix id totalLength t0 chunks s).2 with
            store := storePut (transferPrefix id totalLength t0 chunks s).2.store id
              (transferPrefix id totalLength t0 chunks s).1 }) :=
  rfl

/-! ### requestCore, reconcile and the store, observed -/

lemma findItem_append_singleton (ds : List DownloadItem) (a : DownloadItem) (id : String)
    (h : findItem ds id = none) (ha : a.movieId = id) :
    findItem (ds ++ [a]) id = some a := by
  unfold findItem at *
  rw [List.find?_append, h]
  simp [ha]

lemma findItem_requestCore (id : String) (now : ℤ) (s : AppState) :
    findItem (requestCore id now s).downloads id
      = some (newItem id now (countDownloading s.downloads)) := by
  have hbase : findItem (s.downloads.filter (fun d => d.movieId ≠ id)
      ++ [newItem id now (countDownloading s.downloads)]) id
      = some (newItem id now (countDownloading s.downloads)) :=
    findItem_append_singleton _ _ _ (findItem_filter_ne s.downloads id) rfl
  by_cases h0 : countDownloading s.downloads = 0
  · rw [requestCore_of_zero id now s h0]
    show findItem ((s.downloads.filter (fun d => d.movieId ≠ id)
      ++ [newItem id now (countDownloading s.downloads)]).map _) id = _
    rw [findItem_map _ (fun x => by by_cases hx : x.movieId = id <;> simp [hx]) , hbase]
    have : { newItem id now (countDownloading s.downloads) with status := Status.downloading }
        = newItem id now (countDownloading s.downloads) := by
      simp [newItem, h0]
    show some (if (newItem id now (countDownloading s.downloads)).movieId = id then
      { newItem id now (countDownloading s.downloads) with status := Status.downloading }
      else newItem id now (countDownloading s.downloads))
      = some (newItem id now (countDownloading s.downloads))
    rw [if_pos (show (newItem id now (countDownloading s.downloads)).movieId = id from rfl),
      this]
  · rw [requestCore_of_ne_zero id now s h0]
    exact hbase

lemma requestCore_downloads (id : String) (now : ℤ) (s : AppState) :
    (requestCore id now s).downloads
      = if countDownloading s.downloads = 0 then
          (s.downloads.filter (fun d => d.movieId ≠ id)
            ++ [newItem id now (countDownloading s.downloads)]).map (fun d =>
              if d.movieId = id then { d with status := Status.downloading } else d)
        else s.downloads.filter (fun d => d.movieId ≠ id)
            ++ [newItem id now (countDownloading s.downloads)] := by
  by_cases h0 : countDownloading s.downloads = 0
  · rw [requestCore_of_zero _ _ _ h0, if_pos h0]
    rfl
  · rw [requestCore_of_ne_zero _ _ _ h0, if_neg h0]

lemma requestCore_store (id : String) (now : ℤ) (s : AppState) :
    (requestCore id now s).store = s.store := by
  by_cases h0 : countDownloading s.downloads = 0
  · rw [requestCore_of_zero _ _ _ h0]
    rfl
  · rw [requestCore_of_ne_zero _ _ _ h0]

lemma findItem_of_mem_unique (ds : List DownloadItem) (d : DownloadItem)
    (hU : UniqueIds ds) (hm : d ∈ ds) : findItem ds d.movieId = some d := by
  induction ds with
  | nil => cases hm
  | cons a t ih =>
    simp only [UniqueIds, List.map_cons, List.nodup_cons] at hU
    rcases List.mem_cons.mp hm with rfl | hmt
    · unfold findItem
      rw [List.find?_cons_of_pos]
      simp
    · unfold findItem
      rw [List.find?_cons_of_neg, ← findItem]
      · exact ih hU.2 hmt
      · simp only [decide_eq_true_eq]
        intro hEq
        exact hU.1 (hEq ▸ List.mem_map_of_mem _ hmt)

lemma storeGet_storePut_self (st : Store) (id : String) (n : ℕ) :
    storeGet (storePut st id n) id = some n := by
  unfold storeGet storePut
  rw [List.find?_cons_of_pos] <;> simp

lemma storeGet_storeDelete_self (st : Store) (id : String) :
    storeGet (storeDelete st id) id = none := by
  unfold storeGet storeDelete
  rw [Option.map_eq_none', List.find?_eq_none]
  intro p hp
  have := (List.mem_filter.mp hp).2
  simpa using this

lemma storeGet_storeDelete_none (st : Store) (id x : String)
    (h : storeGet st x = none) : storeGet (storeDelete st id) x = none := by
  unfold storeGet storeDelete at *
  rw [Option.map_eq_none', List.find?_eq_none] at h ⊢
  intro p hp
  exact h p (List.mem_filter.mp hp).1

lemma deleteBlobsLoop_preserves_none (delOk : String → Bool) (ids : List String)
    (x : String) :
    ∀ st : Store, storeGet st x = none →
      storeGet (deleteBlobsLoop delOk ids st).1 x = none := by
  induction ids with
  | nil => intro st h; exact h
  | cons a t ih =>
    intro st h
    by_cases ha : delOk a
    · rw [deleteBlobsLoop, if_pos ha]
      exact ih _ (storeGet_storeDelete_none st a x h)
    · rw [deleteBlobsLoop, if_neg ha]
      exact h

lemma deleteBlobsLoop_success (delOk : String → Bool) (ids : List String) :
    ∀ st : Store, (∀ i ∈ ids, delOk i) →
      (deleteBlobsLoop delOk ids st).2 = true
      ∧ ∀ i ∈ ids, storeGet (deleteBlobsLoop delOk ids st).1 i = none := by
  induction ids with
  | nil => intro st _; exact ⟨rfl, by simp⟩
  | cons a t ih =>
    intro st hall
    rw [deleteBlobsLoop, if_pos (hall a (List.mem_cons_self a t))]
    obtain ⟨h2, hrest⟩ := ih (storeDelete st a) (fun i hi => hall i (List.mem_cons_of_mem a hi))
    refine ⟨h2, fun i hi => ?_⟩
    rcases List.mem_cons.mp hi with rfl | hit
    · exact deleteBlobsLoop_preserves_none delOk t i _ (storeGet_storeDelete_self st i)
    · exact hrest i hit

/-! ### Concrete sample states used to instantiate the theorems -/

/-- A minimal tracked item for id `"A"` with a given status. -/
def itemA (st : Status) : DownloadItem :=
  { movieId := "A", progress := 0, status := st, expiry := 0,
    totalSizeMB := 0, downloadedSizeMB := 0, speed := 0 }

/-- A state tracking only `itemA st`, with no controller and empty store. -/
def stateA (st : Status) : AppState :=
  { downloads := [itemA st], active := [], store := [] }

/-- A state with `"A"` downloading and its controller registered. -/
def stateDl : AppState :=
  { downloads := [itemA Status.downloading], active := ["A"], store := [] }

/-- A state with `"A"` completed and a 9-byte blob stored for it. -/
def stateCompleted : AppState :=
  { downloads := [itemA Status.completed], active := [], store := [("A", 9)] }

/-! ### The claims -/

/-- C1: For every sequence of queue operations (requestDownload, pause, resume
via re-request, remove, clearCompleted, reconciliation, and the transfer
continuations), at every observed instant at most one `DownloadItem` in the
collection has `status = downloading`.  Starting from the initial empty state,
any operation sequence leaves the collection with at most one downloading
entry; since the sequence is arbitrary, this covers every observed instant. -/
theorem C1_at_most_one_downloading (ops : List Op) :
    countDownloading (runOps initState ops).downloads ≤ 1 :=
  (inv_runOps ops initState inv_initState).2

/-- C2: A transfer that ends because its cancellation signal fired transitions
the item to `status = paused` with `speed` cleared and writes no blob to the
store; a transfer that ends with any other thrown condition (a network error,
or a failed `saveVideo`) transitions the item to `status = failed` with
`speed` cleared, and writes no blob. -/
theorem C2_cancel_paused_error_failed (s : AppState) (id : String) (totalLength : ℕ)
    (t0 : ℤ) (chunks : List Chunk) (d : DownloadItem)
    (hd : findItem s.downloads id = some d) :
    (statusOf (executeDownload id totalLength t0 chunks TransferEnd.aborted s) id
        = some Status.paused
      ∧ speedOf (executeDownload id totalLength t0 chunks TransferEnd.aborted s) id = some 0
      ∧ (executeDownload id totalLength t0 chunks TransferEnd.aborted s).store = s.store)
    ∧ (statusOf (executeDownload id totalLength t0 chunks TransferEnd.netError s) id
        = some Status.failed
      ∧ speedOf (executeDownload id totalLength t0 chunks TransferEnd.netError s) id = some 0
      ∧ (executeDownload id totalLength t0 chunks TransferEnd.netError s).store = s.store)
    ∧ (statusOf (executeDownload id totalLength t0 chunks (TransferEnd.finished false) s) id
        = some Status.failed
      ∧ speedOf (executeDownload id totalLength t0 chunks (TransferEnd.finished false) s) id
        = some 0
      ∧ (executeDownload id totalLength t0 chunks (TransferEnd.finished false) s).store
        = s.store) := by
  obtain ⟨d', hd', hst', hid'⟩ := transferPrefix_findItem id totalLength t0 chunks s d hd
  refine ⟨⟨?_, ?_, ?_⟩, ⟨?_, ?_, ?_⟩, ⟨?_, ?_, ?_⟩⟩
  · rw [executeDownload_aborted_eq]
    unfold statusOf
    rw [releaseHandle_downloads, findItem_abortHandler_of_downloading _ _ _ hd' hst']
    rfl
  · rw [executeDownload_aborted_eq]
    unfold speedOf
    rw [releaseHandle_downloads, findItem_abortHandler_of_downloading _ _ _ hd' hst']
    rfl
  · rw [executeDownload_aborted_eq]
    show (abortHandler id (transferPrefix id totalLength t0 chunks s).2).store = s.store
    rw [abortHandler_store, transferPrefix_store]
  · rw [executeDownload_netError_eq]
    unfold statusOf
    rw [releaseHandle_downloads, findItem_errorHandler _ _ _ hd']
    rfl
  · rw [executeDownload_netError_eq]
    unfold speedOf
    rw [releaseHandle_downloads, findItem_errorHandler _ _ _ hd']
    rfl
  · rw [executeDownload_netError_eq]
    show (errorHandler id (transferPrefix id totalLength t0 chunks s).2).store = s.store
    rw [errorHandler_store, transferPrefix_store]
  · rw [executeDownload_saveFail_eq]
    unfold statusOf
    rw [releaseHandle_downloads, findItem_errorHandler _ _ _ hd']
    rfl
  · rw [executeDownload_saveFail_eq]
    unfold speedOf
    rw [releaseHandle_downloads, findItem_errorHandler _ _ _ hd']
    rfl
  · rw [executeDownload_saveFail_eq]
    show (errorHandler id (transferPrefix id totalLength t0 chunks s).2).store = s.store
    rw [errorHandler_store, transferPrefix_store]

/-- Witness for C2 at a concrete input: the downloading item `"A"`, with an
aborted run and a failed run over one chunk. -/
theorem C2_cancel_paused_error_failed_witness :
    statusOf (executeDownload "A" 10 0 [⟨5, 100⟩] TransferEnd.aborted stateDl) "A"
      = some Status.paused
    ∧ statusOf (executeDownload "A" 10 0 [⟨5, 100⟩] TransferEnd.netError stateDl) "A"
      = some Status.failed
    ∧ (executeDownload "A" 10 0 [⟨5, 100⟩] TransferEnd.aborted stateDl).store = stateDl.store := by
  have h := C2_cancel_paused_error_failed stateDl "A" 10 0 [⟨5, 100⟩]
    (itemA Status.downloading) (by decide)
  exact ⟨h.1.1, h.2.1.1, h.1.2.2⟩

/-- C5 counterexample: in a state whose only entry is a `failed` item `"A"`
and with the slot free, `requestDownload` is a no-op - the failed entry is not
replaced and the item does not start `downloading` (or `queued`), contrary to
the claim that a failed entry behaves identically to a fresh request. -/
theorem C5_counterexample :
    statusOf (stateA Status.failed) "A" = some Status.failed
    ∧ countDownloading (stateA Status.failed).downloads = 0
    ∧ requestDownload "A" 0 true (stateA Status.failed) = stateA Status.failed
    ∧ statusOf (requestDownload "A" 0 true (stateA Status.failed)) "A" = some Status.failed
    ∧ ¬ statusOf (requestDownload "A" 0 true (stateA Status.failed)) "A"
        = some Status.downloading
    ∧ ¬ statusOf (requestDownload "A" 0 true (stateA Status.failed)) "A"
        = some Status.queued := by
  decide

/-- C5 (amended): `requestDownload` on an item whose existing entry is not
`paused` - so also a `failed` entry, exactly like active/queued/completed
entries - is a no-op; only an existing `paused` entry is replaced: the entry
is reset to the fresh `newItem` (downloading or queued per slot availability)
and the partial blob is discarded from the store. -/
theorem C5_failed_request_is_noop (s : AppState) (id : String) (now : ℤ) (delOk : Bool)
    (d : DownloadItem) (hd : findItem s.downloads id = some d) :
    (¬ d.status = Status.paused → requestDownload id now delOk s = s)
    ∧ (d.status = Status.paused →
        findItem (requestDownload id now delOk s).downloads id
            = some (newItem id now (countDownloading s.downloads))
        ∧ (requestDownload id now delOk s).store
            = if delOk then storeDelete s.store id else s.store) := by
  constructor
  · intro hp
    unfold requestDownload
    rw [hd]
    exact if_neg hp
  · intro hp
    have hreq : requestDownload id now delOk s
        = requestCore id now (deleteDownload id false delOk s) := by
      unfold requestDownload
      rw [hd]
      exact if_pos hp
    rw [hreq, deleteDownload_keepMeta]
    constructor
    · exact findItem_requestCore id now _
    · rw [requestCore_store]

/-- Witness for C5 at concrete inputs: a failed entry is left untouched, and a
paused entry is reset with its blob discarded. -/
theorem C5_failed_request_is_noop_witness :
    requestDownload "A" 0 true (stateA Status.failed) = stateA Status.failed
    ∧ findItem (requestDownload "A" 3 true
        { stateA Status.paused with store := [("A", 7)] }).downloads "A"
      = some (newItem "A" 3 0) := by
  refine ⟨?_, ?_⟩
  · exact (C5_failed_request_is_noop (stateA Status.failed) "A" 0 true
      (itemA Status.failed) (by decide)).1 (by decide)
  · exact ((C5_failed_request_is_noop { stateA Status.paused with store := [("A", 7)] }
      "A" 3 true (itemA Status.paused) (by decide)).2 (by decide)).1

/-- C6 counterexample: `pause("A")` on a state whose entry for `"A"` is
`completed` (hence not downloading) is not a no-op - the source rewrites the
entry to `paused` unconditionally. -/
theorem C6_counterexample :
    statusOf (stateA Status.completed) "A" = some Status.completed
    ∧ ¬ pauseDownload "A" (stateA Status.completed) = stateA Status.completed
    ∧ statusOf (pauseDownload "A" (stateA Status.completed)) "A" = some Status.paused := by
  decide

/-- C6 (amended): `pause(itemId)` drops any registered controller and rewrites
the entry with that id to `status = paused` with `speed` cleared regardless of
its prior status; it is a no-op on the collection only when no entry with that
id exists. -/
theorem C6_pause_behaviour (s : AppState) (id : String) :
    (∀ d, findItem s.downloads id = some d →
      findItem (pauseDownload id s).downloads id
        = some { d with status := Status.paused, speed := 0 })
    ∧ (findItem s.downloads id = none → (pauseDownload id s).downloads = s.downloads)
    ∧ (pauseDownload id s).active = s.active.filter (fun a => a ≠ id) := by
  refine ⟨fun d hd => ?_, fun hn => ?_, rfl⟩
  · show findItem (s.downloads.map _) id = _
    rw [findItem_map _ (fun x => by by_cases hx : x.movieId = id <;> simp [hx]) , hd]
    simp [findItem_movieId _ _ _ hd]
  · show s.downloads.map _ = s.downloads
    exact map_eq_self_of_not_found _ _ id (fun d hdne => by simp [hdne]) hn

/-- Witness for C6 at concrete inputs: pausing a tracked downloading item, and
pausing an id with no entry. -/
theorem C6_pause_behaviour_witness :
    findItem (pauseDownload "A" stateDl).downloads "A"
      = some { itemA Status.downloading with status := Status.paused, speed := 0 }
    ∧ (pauseDownload "B" stateDl).downloads = stateDl.downloads := by
  refine ⟨?_, ?_⟩
  · exact (C6_pause_behaviour stateDl "A").1 (itemA Status.downloading) (by decide)
  · exact (C6_pause_behaviour stateDl "B").2.1 (by decide)

/-- C7 counterexample: a `downloading` item with a live `speed` of 5 MB/s is
persisted with its `speed` field intact (not excluded), and is loaded back
verbatim as `downloading` (not reinterpreted as `paused`). -/
theorem C7_counterexample :
    (persistItem { itemA Status.downloading with speed := 5 }).speed = 5
    ∧ (loadItem (persistItem { itemA Status.downloading with speed := 5 })).status
        = Status.downloading
    ∧ ¬ (loadItem (persistItem { itemA Status.downloading with speed := 5 })).status
        = Status.paused := by
  decide

/-- C7 (amended): persistence is a verbatim round-trip - `JSON.stringify`
writes every field of the item including `speed`, and the loader
(`JSON.parse`) returns it unchanged, performing no `downloading → paused`
reinterpretation: loading a persisted item yields exactly the item that was
saved, field for field. -/
theorem C7_persistence_roundtrip (d : DownloadItem) :
    loadItem (persistItem d) = d ∧ (persistItem d).speed = d.speed
    ∧ (loadItem (persistItem d)).status = d.status :=
  ⟨rfl, rfl, rfl⟩

/-- C10: If `remove(itemId)` deletes an item's metadata while its transfer is
in flight, the aborted transfer's cancellation handler never re-creates or
modifies that item's entry: for both interleavings of the removal with the
`AbortError` continuation the removed id has no entry afterwards, the handler
never adds or removes entries (it preserves the list of tracked ids), and it
leaves every entry whose status is not `downloading` untouched. -/
theorem C10_removed_item_never_reappears (s : AppState) (id : String) (delOk : Bool) :
    findItem (releaseHandle id (abortHandler id
        (deleteDownload id true delOk s))).downloads id = none
    ∧ findItem (deleteDownload id true delOk
        (releaseHandle id (abortHandler id s))).downloads id = none
    ∧ (abortHandler id s).downloads.map (fun d => d.movieId)
        = s.downloads.map (fun d => d.movieId)
    ∧ (∀ d ∈ s.downloads, ¬ d.status = Status.downloading →
        d ∈ (abortHandler id s).downloads) := by
  refine ⟨?_, ?_, ?_, ?_⟩
  · rw [releaseHandle_downloads]
    show findItem ((deleteDownload id true delOk s).downloads.map _) id = none
    rw [findItem_map _ (fun x => by
      by_cases hx : x.movieId = id ∧ x.status = Status.downloading <;> simp [hx])]
    rw [deleteDownload_removeMeta]
    show ((findItem (s.downloads.filter (fun d => d.movieId ≠ id)) id).map _) = none
    rw [findItem_filter_ne]
    rfl
  · rw [deleteDownload_removeMeta]
    exact findItem_filter_ne _ id
  · show (s.downloads.map (fun d =>
        if d.movieId = id ∧ d.status = Status.downloading then
          { d with status := Status.paused, speed := 0 }
        else d)).map (fun d => d.movieId) = s.downloads.map (fun d => d.movieId)
    rw [List.map_map]
    refine List.map_congr_left (fun d _ => ?_)
    by_cases hx : d.movieId = id ∧ d.status = Status.downloading <;> simp [hx]
  · intro d hd hst
    show d ∈ s.downloads.map _
    have hm := List.mem_map_of_mem (fun d =>
      if d.movieId = id ∧ d.status = Status.downloading then
        { d with status := Status.paused, speed := 0 }
      else d) hd
    simpa [hst] using hm

/-- Witness for C10 at a concrete input: removing the in-flight item `"A"`
in both interleavings, and the untouched `completed` entry. -/
theorem C10_removed_item_never_reappears_witness :
    findItem (releaseHandle "A" (abortHandler "A"
        (deleteDownload "A" true true stateDl))).downloads "A" = none
    ∧ findItem (deleteDownload "A" true true
        (releaseHandle "A" (abortHandler "A" stateDl))).downloads "A" = none
    ∧ itemA Status.completed ∈ (abortHandler "A" stateCompleted).downloads := by
  refine ⟨(C10_removed_item_never_reappears stateDl "A" true).1,
    (C10_removed_item_never_reappears stateDl "A" true).2.1, ?_⟩
  exact (C10_removed_item_never_reappears stateCompleted "A" true).2.2.2
    (itemA Status.completed) (by decide) (by decide)

/-- C4: Queue admission is strict FIFO by insertion order, and a paused item
that is re-requested re-enters as if freshly requested.  First conjunct: when
no item is downloading, the queue-processor effect promotes exactly the first
`queued` entry in list order (new entries are only ever appended, so list
order is insertion order) to `downloading`, leaving every other entry
untouched.  Remaining conjuncts: re-requesting a `paused` item removes its old
entry and appends a fresh entry at the back of the list, whose status is
`downloading` when the slot is free and `queued` otherwise. -/
theorem C4_fifo_admission (s : AppState) :
    (∀ (catalog : List String) (nxt : DownloadItem),
      UniqueIds s.downloads →
      countDownloading s.downloads = 0 →
      List.find? (fun d => d.status = Status.queued) s.downloads = some nxt →
      nxt.movieId ∈ catalog →
      findItem (reconcile catalog s).downloads nxt.movieId
          = some { nxt with status := Status.downloading }
        ∧ (∀ d ∈ s.downloads, ¬ d.movieId = nxt.movieId →
            d ∈ (reconcile catalog s).downloads))
    ∧ (∀ (id : String) (now : ℤ) (delOk : Bool) (d : DownloadItem),
        findItem s.downloads id = some d → d.status = Status.paused →
        (requestDownload id now delOk s).downloads
          = s.downloads.filter (fun x => x.movieId ≠ id)
            ++ [newItem id now (countDownloading s.downloads)])
    ∧ (∀ (id : String) (now : ℤ),
        (countDownloading s.downloads = 0 →
          (newItem id now (countDownloading s.downloads)).status = Status.downloading)
        ∧ (¬ countDownloading s.downloads = 0 →
          (newItem id now (countDownloading s.downloads)).status = Status.queued)) := by
  refine ⟨fun catalog nxt hU h0 hfind hcat => ?_, fun id now delOk d hd hp => ?_,
    fun id now => ⟨fun h0 => by simp [newItem, h0], fun h0 => by simp [newItem, h0]⟩⟩
  · have hrec : reconcile catalog s = executeStart nxt.movieId s := by
      unfold reconcile
      rw [if_pos h0, hfind]
      exact if_pos hcat
    have hmem : nxt ∈ s.downloads := List.mem_of_find?_eq_some hfind
    constructor
    · rw [hrec]
      exact findItem_executeStart s nxt.movieId nxt (findItem_of_mem_unique _ _ hU hmem)
    · intro d hd hne
      rw [hrec]
      show d ∈ s.downloads.map _
      have hm := List.mem_map_of_mem (fun d =>
        if d.movieId = nxt.movieId then { d with status := Status.downloading } else d) hd
      simpa [hne] using hm
  · have hreq : requestDownload id now delOk s
        = requestCore id now (deleteDownload id false delOk s) := by
      unfold requestDownload
      rw [hd]
      exact if_pos hp
    rw [hreq, deleteDownload_keepMeta, requestCore_downloads]
    dsimp only
    by_cases h0 : countDownloading s.downloads = 0
    · rw [if_pos h0]
      rw [List.map_append]
      congr 1
      · refine List.map_congr_left (fun x hx => ?_) |>.trans (List.map_id' _)
        have := (List.mem_filter.mp hx).2
        simp only [decide_eq_true_eq] at this
        simp [this]
      · have : { newItem id now (countDownloading s.downloads) with
            status := Status.downloading } = newItem id now (countDownloading s.downloads) := by
          simp [newItem, h0]
        simp only [List.map_cons, List.map_nil]
        rw [if_pos (show (newItem id now (countDownloading s.downloads)).movieId = id from rfl),
          this]
    · rw [if_neg h0]

/-- Witness for C4 at a concrete input: with `"A"` completed and `"B"`,`"C"`
queued in request order, reconciliation promotes `"B"` (the earlier queued
entry); and re-requesting a paused item with the slot busy appends it at the
back as `queued`. -/
theorem C4_fifo_admission_witness :
    findItem (reconcile ["A", "B", "C"]
        { downloads := [itemA Status.completed,
            { itemA Status.queued with movieId := "B" },
            { itemA Status.queued with movieId := "C" }],
          active := [], store := [] }).downloads "B"
      = some { { itemA Status.queued with movieId := "B" } with status := Status.downloading }
    ∧ (requestDownload "A" 0 true
        { downloads := [itemA Status.paused,
            { itemA Status.downloading with movieId := "B" }],
          active := ["B"], store := [] }).downloads
      = [{ itemA Status.downloading with movieId := "B" }, newItem "A" 0 1] := by
  constructor
  · exact ((C4_fifo_admission
      { downloads := [itemA Status.completed,
          { itemA Status.queued with movieId := "B" },
          { itemA Status.queued with movieId := "C" }],
        active := [], store := [] }).1 ["A", "B", "C"]
      { itemA Status.queued with movieId := "B" }
      (by unfold UniqueIds; decide) (by decide) (by decide) (by decide)).1
  · have h := (C4_fifo_admission
      { downloads := [itemA Status.paused,
          { itemA Status.downloading with movieId := "B" }],
        active := ["B"], store := [] }).2.1 "A" 0 true
      (itemA Status.paused) (by decide) (by decide)
    rw [h]
    decide

/-- C3 counterexample: a transfer of a single 1 MiB chunk that arrives 100 ms
after the loop started (under the 800 ms throttle) completes with a stored
blob of 1048576 bytes, but the item's recorded `downloadedSizeMB` is still 0 -
the final update sets `status`, `progress` and `speed` only, so the stored
blob's size does not match the recorded downloaded-size field (in bytes or in
MB). -/
theorem C3_counterexample :
    statusOf (executeDownload "A" 1048576 0 [⟨1048576, 100⟩]
        (TransferEnd.finished true) stateDl) "A" = some Status.completed
    ∧ storeGet (executeDownload "A" 1048576 0 [⟨1048576, 100⟩]
        (TransferEnd.finished true) stateDl).store "A" = some 1048576
    ∧ downloadedOf (executeDownload "A" 1048576 0 [⟨1048576, 100⟩]
        (TransferEnd.finished true) stateDl) "A" = some 0
    ∧ ¬ ((1048576 : ℚ) / (1024 * 1024) = 0)
    ∧ ¬ ((1048576 : ℚ) = 0) := by
  refine ⟨by decide, by decide, by decide, by norm_num, by norm_num⟩

/-- C3 (amended): For every transfer whose byte stream ends normally, the
received bytes are assembled into one blob and persisted to the store under
the item's key, and only after the store confirms the write does the item
become `completed` with `progress = 100` and `speed` cleared; a failed store
write routes to the error branch, leaving the item `failed` (never
`completed`) and the store untouched.  The stored blob's size equals the total
byte count received; the recorded `downloadedSizeMB` field however holds only
the last throttled sample and may be smaller than the blob. -/
theorem C3_completion_after_store_write (s : AppState) (id : String) (totalLength : ℕ)
    (t0 : ℤ) (chunks : List Chunk) (d : DownloadItem)
    (hd : findItem s.downloads id = some d) :
    (statusOf (executeDownload id totalLength t0 chunks (TransferEnd.finished true) s) id
        = some Status.completed
      ∧ progressOf (executeDownload id totalLength t0 chunks (TransferEnd.finished true) s) id
        = some 100
      ∧ speedOf (executeDownload id totalLength t0 chunks (TransferEnd.finished true) s) id
        = some 0
      ∧ storeGet (executeDownload id totalLength t0 chunks
          (TransferEnd.finished true) s).store id
        = some ((chunks.map (fun c => c.len)).sum))
    ∧ (statusOf (executeDownload id totalLength t0 chunks (TransferEnd.finished false) s) id
        = some Status.failed
      ∧ (executeDownload id totalLength t0 chunks (TransferEnd.finished false) s).store
        = s.store) := by
  obtain ⟨d', hd', hst', hid'⟩ := transferPrefix_findItem id totalLength t0 chunks s d hd
  refine ⟨⟨?_, ?_, ?_, ?_⟩, ?_, ?_⟩
  · rw [executeDownload_saveOk_eq]
    unfold statusOf
    rw [releaseHandle_downloads]
    show Option.map (fun d => d.status)
      (findItem ((transferPrefix id totalLength t0 chunks s).2.downloads.map (fun x =>
        if x.movieId = id then
          { x with status := Status.completed, progress := 100, speed := 0 }
        else x)) id) = some Status.completed
    rw [findItem_complete_map _ _ _ hd']
    rfl
  · rw [executeDownload_saveOk_eq]
    unfold progressOf
    rw [releaseHandle_downloads]
    show Option.map (fun d => d.progress)
      (findItem ((transferPrefix id totalLength t0 chunks s).2.downloads.map (fun x =>
        if x.movieId = id then
          { x with status := Status.completed, progress := 100, speed := 0 }
        else x)) id) = some 100
    rw [findItem_complete_map _ _ _ hd']
    rfl
  · rw [executeDownload_saveOk_eq]
    unfold speedOf
    rw [releaseHandle_downloads]
    show Option.map (fun d => d.speed)
      (findItem ((transferPrefix id totalLength t0 chunks s).2.downloads.map (fun x =>
        if x.movieId = id then
          { x with status := Status.completed, progress := 100, speed := 0 }
        else x)) id) = some 0
    rw [findItem_complete_map _ _ _ hd']
    rfl
  · rw [executeDownload_saveOk_eq]
    show storeGet (storePut (transferPrefix id totalLength t0 chunks s).2.store id
      (transferPrefix id totalLength t0 chunks s).1) id = _
    rw [storeGet_storePut_self, transferPrefix_fst]
  · rw [executeDownload_saveFail_eq]
    unfold statusOf
    rw [releaseHandle_downloads, findItem_errorHandler _ _ _ hd']
    rfl
  · rw [executeDownload_saveFail_eq]
    show (errorHandler id (transferPrefix id totalLength t0 chunks s).2).store = s.store
    rw [errorHandler_store, transferPrefix_store]

/-- Witness for C3 at a concrete input: the completed run over two chunks of
`stateDl`, and a failed store write. -/
theorem C3_completion_after_store_write_witness :
    statusOf (executeDownload "A" 12 0 [⟨5, 100⟩, ⟨7, 2000⟩]
        (TransferEnd.finished true) stateDl) "A" = some Status.completed
    ∧ storeGet (executeDownload "A" 12 0 [⟨5, 100⟩, ⟨7, 2000⟩]
        (TransferEnd.finished true) stateDl).store "A" = some 12
    ∧ statusOf (executeDownload "A" 12 0 [⟨5, 100⟩, ⟨7, 2000⟩]
        (TransferEnd.finished false) stateDl) "A" = some Status.failed := by
  have h := C3_completion_after_store_write stateDl "A" 12 0 [⟨5, 100⟩, ⟨7, 2000⟩]
    (itemA Status.downloading) (by decide)
  exact ⟨h.1.1, h.1.2.2.2, h.2.1⟩

/-- The effect of one published (>800 ms) read with a known total length: the
progress percentage is the byte ratio, the size fields are the byte counts
divided by 1024*1024, the speed is MB per second. -/
lemma chunkLoop_single_publish (id : String) (total : ℕ) (t0 : ℤ) (c : Chunk)
    (ds : List DownloadItem) (d : DownloadItem)
    (hd : findItem ds id = some d) (ht : c.time - t0 > 800) (htot : 0 < total) :
    (chunkLoop id total [c] 0 t0 0 ds).1 = c.len
    ∧ findItem (chunkLoop id total [c] 0 t0 0 ds).2 id = some
        { d with
          progress := ((c.len : ℚ) / (total : ℚ)) * 100,
          downloadedSizeMB := (c.len : ℚ) / (1024 * 1024),
          totalSizeMB := (total : ℚ) / (1024 * 1024),
          speed := ((c.len : ℚ) / (1024 * 1024)) / (((c.time - t0 : ℤ) : ℚ) / 1000) } := by
  constructor
  · rw [chunkLoop_fst]
    simp
  · rw [chunkLoop, if_pos ht]
    show findItem (publishUpdate id _ _ _ _ ds) id = _
    rw [publishUpdate_eq_map,
      findItem_map _ (fun x => by by_cases hx : x.movieId = id <;> simp [hx]) , hd]
    have hmov := findItem_movieId _ _ _ hd
    show some (if d.movieId = id then _ else d) = _
    rw [if_pos hmov]
    congr 1
    simp only [htot, if_pos, Nat.zero_add, Nat.cast_zero]
    congr 1
    push_cast
    ring

/-- C8 counterexample: after receiving 2097152 bytes in a published (>800 ms)
sample, the item's recorded downloaded-size field holds the byte count divided
by 1024*1024 - which is 2, not the byte count 2097152 - so size accounting in
the `DownloadItem` fields is not carried out in bytes but converted to MB
inside the transfer loop. -/
theorem C8_counterexample :
    downloadedOf { stateDl with downloads :=
        (chunkLoop "A" 4194304 [⟨2097152, 1000⟩] 0 0 0 stateDl.downloads).2 } "A"
      = some (((2097152 : ℕ) : ℚ) / (1024 * 1024))
    ∧ ((2097152 : ℕ) : ℚ) / (1024 * 1024) = 2
    ∧ ¬ ((2 : ℚ) = 2097152) := by
  have h := chunkLoop_single_publish "A" 4194304 0 ⟨2097152, 1000⟩ stateDl.downloads
    (itemA Status.downloading) (by decide) (by decide) (by decide)
  refine ⟨?_, by push_cast; norm_num, by norm_num⟩
  show Option.map (fun d => d.downloadedSizeMB)
    (findItem (chunkLoop "A" 4194304 [⟨2097152, 1000⟩] 0 0 0 stateDl.downloads).2 "A") = _
  rw [h.2]
  rfl

/-- C8 (amended): inside the transfer loop, the progress percentage is
computed in bytes (`receivedLength / totalLength * 100`), while the
`DownloadItem` size fields and the throughput are converted to MB and MB/s
inside the loop itself (`bytes / (1024*1024)`), not at the presentation
boundary; the blob store records the byte count.  Stated for a single
published (>800 ms) read with a known total. -/
theorem C8_progress_bytes_sizes_mb (id : String) (total : ℕ) (t0 : ℤ) (c : Chunk)
    (ds : List DownloadItem) (d : DownloadItem)
    (hd : findItem ds id = some d) (ht : c.time - t0 > 800) (htot : 0 < total) :
    (chunkLoop id total [c] 0 t0 0 ds).1 = c.len
    ∧ findItem (chunkLoop id total [c] 0 t0 0 ds).2 id = some
        { d with
          progress := ((c.len : ℚ) / (total : ℚ)) * 100,
          downloadedSizeMB := (c.len : ℚ) / (1024 * 1024),
          totalSizeMB := (total : ℚ) / (1024 * 1024),
          speed := ((c.len : ℚ) / (1024 * 1024)) / (((c.time - t0 : ℤ) : ℚ) / 1000) } :=
  chunkLoop_single_publish id total t0 c ds d hd ht htot

/-- Witness for C8 at a concrete input: one 2 MiB chunk after 1000 ms with a
4 MiB total. -/
theorem C8_progress_bytes_sizes_mb_witness :
    (chunkLoop "A" 4194304 [⟨2097152, 1000⟩] 0 0 0 stateDl.downloads).1 = 2097152 :=
  (C8_progress_bytes_sizes_mb "A" 4194304 0 ⟨2097152, 1000⟩ stateDl.downloads
    (itemA Status.downloading) (by decide) (by decide) (by decide)).1

/-- C9 counterexample: with one `completed` item whose blob delete fails, the
storage failure is not swallowed - `clearCompleted` rejects (flag `false`)
before reaching its metadata update, so the completed metadata entry and the
blob both remain, contrary to the claim that the bulk operation still removes
all completed metadata. -/
theorem C9_counterexample :
    (clearCompleted (fun _ => false) stateCompleted).2 = false
    ∧ statusOf (clearCompleted (fun _ => false) stateCompleted).1 "A"
        = some Status.completed
    ∧ storeGet (clearCompleted (fun _ => false) stateCompleted).1.store "A" = some 9 := by
  decide

/-- C9 (amended): when every completed item's blob delete succeeds,
`clearCompleted` deletes the blob and the metadata entry of every `completed`
item; but a storage-layer failure while deleting one blob is not swallowed -
the unhandled rejection aborts the call before the metadata update, leaving
the `downloads` metadata unchanged. -/
theorem C9_clear_completed (delOk : String → Bool) (s : AppState) :
    ((∀ d ∈ s.downloads, d.status = Status.completed → delOk d.movieId) →
      (clearCompleted delOk s).2 = true
      ∧ (clearCompleted delOk s).1.downloads
          = s.downloads.filter (fun d => ¬ d.status = Status.completed)
      ∧ ∀ d ∈ s.downloads, d.status = Status.completed →
          storeGet (clearCompleted delOk s).1.store d.movieId = none)
    ∧ ((clearCompleted delOk s).2 = false →
        (clearCompleted delOk s).1.downloads = s.downloads) := by
  set ids := (s.downloads.filter (fun d => d.status = Status.completed)).map
    (fun d => d.movieId) with hids_def
  set r := deleteBlobsLoop delOk ids s.store with hr_def
  have hcc : clearCompleted delOk s =
      if r.2 then
        ({ s with
            store := r.1,
            downloads := s.downloads.filter (fun d => ¬ d.status = Status.completed) },
         true)
      else ({ s with store := r.1 }, false) := rfl
  constructor
  · intro hall
    have hidsOk : ∀ i ∈ ids, delOk i := by
      intro i hi
      rw [hids_def] at hi
      obtain ⟨d, hdm, rfl⟩ := List.mem_map.mp hi
      have hmem := List.mem_filter.mp hdm
      exact hall d hmem.1 (by simpa using hmem.2)
    obtain ⟨h2, hdel⟩ := deleteBlobsLoop_success delOk ids s.store hidsOk
    rw [← hr_def] at h2 hdel
    rw [hcc, if_pos h2]
    refine ⟨rfl, rfl, fun d hdm hst => ?_⟩
    refine hdel d.movieId ?_
    rw [hids_def]
    exact List.mem_map_of_mem _ (List.mem_filter.mpr ⟨hdm, by simpa using hst⟩)
  · intro hfail
    by_cases h2 : r.2 = true
    · rw [hcc, if_pos h2] at hfail
      cases hfail
    · rw [hcc, if_neg h2]

/-- Witness for C9 at a concrete input: all deletes succeed on
`stateCompleted`, and the flag-false branch on a failing delete. -/
theorem C9_clear_completed_witness :
    (clearCompleted (fun _ => true) stateCompleted).2 = true
    ∧ (clearCompleted (fun _ => true) stateCompleted).1.downloads = []
    ∧ storeGet (clearCompleted (fun _ => true) stateCompleted).1.store "A" = none
    ∧ (clearCompleted (fun _ => false) stateCompleted).1.downloads
        = stateCompleted.downloads := by
  have h := (C9_clear_completed (fun _ => true) stateCompleted).1
    (fun d _ _ => rfl)
  refine ⟨h.1, ?_, ?_, ?_⟩
  · rw [h.2.1]
    decide
  · exact h.2.2 (itemA Status.completed) (by decide) (by decide)
  · exact (C9_clear_completed (fun _ => false) stateCompleted).2 (by decide)

end Stream
